import Mathlib

/-
Verification development for the polar-plant dashboard data pipeline
(src/main.py).  The pipeline discovers data files in a directory, loads
per-school environment tables from CSV files and per-school growth tables
from the sheets of an XLSX workbook, and hands the two resulting mappings
to the presentation layer.

Modelling conventions:
  * Python strings are sequences of Unicode codepoints, embedded as
    List Nat (PyStr below).
  * unicodedata.normalize("NFC", s) is modelled by canonical Hangul
    syllable composition (the algorithmic part of NFC; every identifier
    in this repository is Korean or ASCII, and ASCII is untouched by
    NFC).  Codepoints outside the Hangul-jamo ranges pass through
    unchanged.
  * str.lower() is modelled on the ASCII range (the only extensions
    compared in the program are ASCII).
  * pathlib.Path.suffix / .stem follow the CPython rule: the suffix
    starts at the last dot whose index i satisfies 0 < i < len - 1.
  * A pandas DataFrame is a Table: an ordered list of named columns of
    cell values.  pandas.read_csv without parse_dates never produces
    date-time cells, so a time column of date strings is loaded as
    Value.str cells; Value.datetime exists so that the (absent)
    conversion step is expressible.
  * A Python dict is an insertion-ordered association list; assignment
    replaces the value of an existing key in place, otherwise appends.
  * st.error(...) followed by return None, and st.stop(), are modelled
    by the loaders and the dashboard returning none.
-/

/-- A Python string, as its sequence of Unicode codepoints. -/
abbrev PyStr := List Nat

/-- Leading Hangul consonant jamo (choseong), U+1100 to U+1112. -/
def isL (c : Nat) : Bool := decide (0x1100 ≤ c ∧ c ≤ 0x1112)

/-- Hangul vowel jamo (jungseong), U+1161 to U+1175. -/
def isV (c : Nat) : Bool := decide (0x1161 ≤ c ∧ c ≤ 0x1175)

/-- Trailing Hangul consonant jamo (jongseong), U+11A8 to U+11C2. -/
def isT (c : Nat) : Bool := decide (0x11A8 ≤ c ∧ c ≤ 0x11C2)

/-- A precomposed Hangul syllable with no trailing consonant (an LV
syllable), which may still compose with a following jongseong. -/
def isLVSyl (c : Nat) : Bool :=
  decide (0xAC00 ≤ c ∧ c ≤ 0xD7A3 ∧ (c - 0xAC00) % 28 = 0)

/-- Canonical composition of a choseong and a jungseong into an LV
syllable, per the Unicode Hangul composition algorithm. -/
def composeLV (l v : Nat) : Nat :=
  0xAC00 + (l - 0x1100) * 588 + (v - 0x1161) * 28

/-- Whether codepoint b canonically composes onto a preceding a. -/
def composable (a b : Nat) : Bool :=
  (isL a && isV b) || (isLVSyl a && isT b)

/-- Streaming canonical composer: acc holds the output so far in
reverse; each incoming codepoint either composes onto the most recently
emitted one or is emitted itself. -/
def nfcAux : PyStr → PyStr → PyStr
  | acc, [] => acc.reverse
  | [], c :: rest => nfcAux [c] rest
  | o :: os, c :: rest =>
    if isL o && isV c then nfcAux (composeLV o c :: os) rest
    else if isLVSyl o && isT c then nfcAux ((o + (c - 0x11A7)) :: os) rest
    else nfcAux (c :: o :: os) rest

/-- Model of unicodedata.normalize("NFC", s): canonical Hangul
composition; all other codepoints pass through unchanged. -/
def nfc (s : PyStr) : PyStr := nfcAux [] s

/-- src/main.py line 30: normalize_name returns the NFC form of a name. -/
def normalize_name (name : PyStr) : PyStr := nfc name

/-- Python str.lower on one codepoint, modelled on the ASCII range. -/
def toLowerCp (c : Nat) : Nat :=
  if 0x41 ≤ c ∧ c ≤ 0x5A then c + 0x20 else c

/-- Python str.lower, modelled on the ASCII range. -/
def pyLower (s : PyStr) : PyStr := s.map toLowerCp

/-- Index of the last dot of a filename, if any. -/
def dotIdx (nm : PyStr) : Option Nat :=
  (nm.reverse.findIdx? (fun c => c == 0x2E)).map (fun j => nm.length - 1 - j)

/-- pathlib.Path.suffix: the part of the name from its last dot on,
provided that dot is neither the first nor the last character. -/
def pathSuffix (nm : PyStr) : PyStr :=
  match dotIdx nm with
  | none => []
  | some i => if 0 < i ∧ i + 1 < nm.length then nm.drop i else []

/-- pathlib.Path.stem: the name with its suffix removed. -/
def pathStem (nm : PyStr) : PyStr :=
  match dotIdx nm with
  | none => nm
  | some i => if 0 < i ∧ i + 1 < nm.length then nm.take i else nm

/-- A cell of a loaded table.  pandas.read_csv without parse_dates
leaves non-numeric cells as strings; Value.datetime is the structured
date-time type a conversion step would produce. -/
inductive Value
  | str (s : PyStr)
  | num (x : Int)
  | datetime (t : Int)
deriving DecidableEq

/-- Whether a cell holds a structured date-time value. -/
def Value.isDatetime : Value → Bool
  | .datetime _ => true
  | _ => false

/-- A dataframe: an ordered list of named columns. -/
structure Table where
  cols : List (PyStr × List Value)
deriving DecidableEq

/-- The values of a named column, if present. -/
def Table.getColumn (t : Table) (c : PyStr) : Option (List Value) :=
  (t.cols.find? (fun p => p.1 == c)).map Prod.snd

/-- len(df): the number of rows of a table. -/
def Table.nrows (t : Table) : Nat :=
  match t.cols with
  | [] => 0
  | c :: _ => c.2.length

/-- The parseable content of a file on disk: a delimited table, a
multi-sheet workbook, or something else. -/
inductive FileData
  | csv (t : Table)
  | xlsx (sheets : List (PyStr × Table))
  | other
deriving DecidableEq

/-- A directory entry: a filename and the file's content. -/
structure DirFile where
  fname : PyStr
  fdata : FileData
deriving DecidableEq

/-- The table of a file that parses as CSV. -/
def csvTable : DirFile → Option Table
  | ⟨_, .csv t⟩ => some t
  | _ => none

/-- src/main.py lines 33-38: find_files_by_ext keeps, in directory
iteration order, the files whose lower-cased, NFC-normalized suffix
equals the target extension string as given. -/
def find_files_by_ext (directory : List DirFile) (ext : PyStr) : List DirFile :=
  directory.filter (fun f => normalize_name (pyLower (pathSuffix f.fname)) == ext)

/-- A Python dict with string keys, as an insertion-ordered association
list. -/
abbrev PyDict (α : Type) := List (PyStr × α)

/-- Python dict item assignment d[k] = v: replace the value of an
existing key in place, otherwise append the new pair. -/
def dictInsert (m : PyDict α) (k : PyStr) (v : α) : PyDict α :=
  match m with
  | [] => [(k, v)]
  | p :: rest => if p.1 = k then (k, v) :: rest else p :: dictInsert rest k v

/-- Python dict lookup d.get(k). -/
def dictLookup (m : PyDict α) (k : PyStr) : Option α :=
  (m.find? (fun p => p.1 == k)).map Prod.snd

/-- The keys of a dict, in insertion order. -/
def dictKeys (m : PyDict α) : List PyStr := m.map Prod.fst

/-- The school key derived from an environment filename,
src/main.py line 53: NFC of the stem's leading token before "_". -/
def envKey (f : DirFile) : PyStr :=
  normalize_name ((pathStem f.fname).takeWhile (fun c => c != 0x5F))

/-- The loop of src/main.py lines 52-55: read each CSV file and assign
its table to the derived school key; a file that fails to parse as CSV
raises, aborting the load. -/
def envLoad : List DirFile → PyDict Table → Option (PyDict Table)
  | [], m => some m
  | f :: rest, m =>
    match f.fdata with
    | .csv t => envLoad rest (dictInsert m (envKey f) t)
    | _ => none

/-- The codepoints of ".csv". -/
def dotCsvExt : PyStr := [0x2E, 0x63, 0x73, 0x76]

/-- The codepoints of ".xlsx". -/
def dotXlsxExt : PyStr := [0x2E, 0x78, 0x6C, 0x73, 0x78]

/-- src/main.py lines 44-57: load_environment_data; none models the
st.error plus return None path taken when no CSV file is found. -/
def load_environment_data (directory : List DirFile) : Option (PyDict Table) :=
  match find_files_by_ext directory dotCsvExt with
  | [] => none
  | f :: rest => envLoad (f :: rest) []

/-- The loop of src/main.py lines 70-73: one dict entry per sheet,
keyed by the NFC-normalized sheet name. -/
def sheetFold (sheets : List (PyStr × Table)) : PyDict Table :=
  sheets.foldl (fun m p => dictInsert m (normalize_name p.1) p.2) []

/-- src/main.py lines 61-75: load_growth_data; none models the st.error
plus return None path when no XLSX file is found, or a raised parse
error when the first matched file is not a workbook. -/
def load_growth_data (directory : List DirFile) : Option (PyDict Table) :=
  match find_files_by_ext directory dotXlsxExt with
  | [] => none
  | f :: _ =>
    match f.fdata with
    | .xlsx sheets => some (sheetFold sheets)
    | _ => none

/-- src/main.py line 90: sorted(set(env keys) and-ed with set(growth
keys)) — the sorted list of the keys common to both datasets. -/
def schoolsOf (env gro : PyDict Table) : List PyStr :=
  List.insertionSort (fun a b => a ≤ b)
    ((dictKeys env).filter (fun k => (dictKeys gro).any (fun j => j == k)))

/-- The school name 송도고. -/
def songdoName : PyStr := [0xC1A1, 0xB3C4, 0xACE0]

/-- The school name 하늘고. -/
def haneulName : PyStr := [0xD558, 0xB298, 0xACE0]

/-- The school name 아라고. -/
def araName : PyStr := [0xC544, 0xB77C, 0xACE0]

/-- The school name 동산고. -/
def dongsanName : PyStr := [0xB3D9, 0xC0B0, 0xACE0]

/-- src/main.py lines 92-97: the per-school target EC values (all four
float literals are integral, so Int is exact). -/
def ec_conditions : PyDict Int :=
  [(songdoName, 1), (haneulName, 2), (araName, 4), (dongsanName, 8)]

/-- src/main.py lines 99-104: the per-school display colors, as raw
codepoint strings. -/
def color_map : PyDict PyStr :=
  [(songdoName, [0x23, 0x31, 0x66, 0x37, 0x37, 0x62, 0x34]),
   (haneulName, [0x23, 0x32, 0x63, 0x61, 0x30, 0x32, 0x63]),
   (araName, [0x23, 0x66, 0x66, 0x37, 0x66, 0x30, 0x65]),
   (dongsanName, [0x23, 0x64, 0x36, 0x32, 0x37, 0x32, 0x38])]

/-- One row of the Tab 1 summary table, src/main.py lines 142-147. -/
structure SummaryRow where
  school : PyStr
  ecTarget : Option Int
  count : Nat
  color : Option PyStr
deriving DecidableEq

/-- The Tab 1 summary loop, src/main.py lines 137-147: one row per
school in the schools list. -/
def summary_rows (schools : List PyStr) (growth : PyDict Table) : List SummaryRow :=
  schools.map (fun s =>
    ⟨s, dictLookup ec_conditions s, ((dictLookup growth s).getD ⟨[]⟩).nrows,
      dictLookup color_map s⟩)

/-- The data available to the rendering code once both loads succeed. -/
structure DashState where
  env_data : PyDict Table
  growth_data : PyDict Table
  schools : List PyStr
deriving DecidableEq

/-- src/main.py lines 83-90: run both loaders; if either returns None,
st.stop() halts the script before any aggregation or rendering
(modelled by none); otherwise the schools list is computed and the
tabs render. -/
def run_dashboard (directory : List DirFile) : Option DashState :=
  match load_environment_data directory, load_growth_data directory with
  | some e, some g => some ⟨e, g, schoolsOf e g⟩
  | _, _ => none

/-- Whether one codepoint string starts with another. -/
def startsWithCp : PyStr → PyStr → Bool
  | _, [] => true
  | [], _ :: _ => false
  | a :: as, b :: bs => a == b && startsWithCp as bs

/-- Whether needle occurs as a contiguous substring of hay. -/
def containsSub (hay needle : PyStr) : Bool :=
  match hay with
  | [] => needle.isEmpty
  | _ :: rest => startsWithCp hay needle || containsSub rest needle

/-- Modelled from the spec: the keyword-match discovery rule of the
File Locator (spec section 4.1), which is absent from src/main.py —
normalize both the keyword and every candidate filename to composed
Unicode form and return the first file whose normalized name contains
the normalized keyword as a substring; none (non-fatal "not found")
when no file matches. -/
def find_file_by_keyword (directory : List DirFile) (keyword : PyStr) : Option DirFile :=
  match directory with
  | [] => none
  | f :: rest =>
    if containsSub (normalize_name f.fname) (normalize_name keyword) then some f
    else find_file_by_keyword rest keyword

/-- Adjacent-pair freedom from canonical composition: no codepoint of
the string composes onto its predecessor. -/
def noComp : PyStr → Bool
  | [] => true
  | [_] => true
  | a :: b :: rest => !composable a b && noComp (b :: rest)

/-- Either the first option if present, else the second. -/
def optOr : Option α → Option α → Option α
  | some x, _ => some x
  | none, o => o

/-
Concrete fixtures used by witnesses and counterexamples.  ASCII names
are written as codepoint lists; a comment gives the readable form.
-/

/-- Fixture table whose time column holds the raw string "x" (an
unparseable timestamp) and whose temp column is numeric. -/
def tblTimeX : Table :=
  ⟨[([0x74, 0x69, 0x6D, 0x65], [Value.str [0x78]]),
    ([0x74, 0x65, 0x6D, 0x70], [Value.num 21])]⟩

/-- Fixture table whose time column holds the raw string "y". -/
def tblTimeY : Table :=
  ⟨[([0x74, 0x69, 0x6D, 0x65], [Value.str [0x79]])]⟩

/-- Fixture table with one numeric column. -/
def tblOne : Table := ⟨[([0x61], [Value.num 1])]⟩

/-- A second, distinct fixture table. -/
def tblTwo : Table := ⟨[([0x62], [Value.num 2])]⟩

/-- "a_x.csv": derived school key is the codepoint string "a". -/
def fileAX : DirFile := ⟨[0x61, 0x5F, 0x78, 0x2E, 0x63, 0x73, 0x76], .csv tblTimeX⟩

/-- "a_y.csv": the same derived school key "a". -/
def fileAY : DirFile := ⟨[0x61, 0x5F, 0x79, 0x2E, 0x63, 0x73, 0x76], .csv tblTimeY⟩

/-- "b_e.csv": derived school key "b". -/
def fileB : DirFile := ⟨[0x62, 0x5F, 0x65, 0x2E, 0x63, 0x73, 0x76], .csv tblOne⟩

/-- "data.csv". -/
def fileDataCsv : DirFile := ⟨[0x64, 0x61, 0x74, 0x61, 0x2E, 0x63, 0x73, 0x76], .csv tblOne⟩

/-- "DATA.XLSX", an upper-cased workbook filename with one sheet. -/
def fileDataXlsxUpper : DirFile :=
  ⟨[0x44, 0x41, 0x54, 0x41, 0x2E, 0x58, 0x4C, 0x53, 0x58], .xlsx [([0xD558], tblOne)]⟩

/-- The upper-cased target extension string ".CSV". -/
def dotCsvUpper : PyStr := [0x2E, 0x43, 0x53, 0x56]

/-- Two sheets whose names are the decomposed and the precomposed
spellings of the same Hangul syllable 하 — distinct raw strings with
the same NFC form U+D558. -/
def sheetsCollide : List (PyStr × Table) :=
  [([0x1112, 0x1161], tblOne), ([0xD558], tblTwo)]

/-- "g.xlsx": a workbook holding the two NFC-colliding sheets. -/
def wbCollide : DirFile :=
  ⟨[0x67, 0x2E, 0x78, 0x6C, 0x73, 0x78], .xlsx sheetsCollide⟩

/-- "h.xlsx": a workbook with two sheets named 하 and 한, whose NFC
forms are distinct. -/
def wbTwo : DirFile :=
  ⟨[0x68, 0x2E, 0x78, 0x6C, 0x73, 0x78],
   .xlsx [([0xD558], tblOne), ([0xD55C], tblTwo)]⟩

/-- "g.xlsx": a workbook with a single sheet named "b". -/
def wbB : DirFile :=
  ⟨[0x67, 0x2E, 0x78, 0x6C, 0x73, 0x78], .xlsx [([0x62], tblTwo)]⟩

/-- "r.txt": a file matching no keyword of interest. -/
def fileKwNo : DirFile := ⟨[0x72, 0x2E, 0x74, 0x78, 0x74], .other⟩

/-- "x송도고.csv": a filename containing the school name 송도고. -/
def fileKwYes : DirFile := ⟨[0x78] ++ songdoName ++ dotCsvExt, .csv tblOne⟩

/-- The codepoints of the column name "temperature". -/
def temperatureCol : PyStr :=
  [0x74, 0x65, 0x6D, 0x70, 0x65, 0x72, 0x61, 0x74, 0x75, 0x72, 0x65]

/-- src/main.py line 155: the series whose mean is rendered as the
average-temperature metric — the temperature columns of ALL loaded
environment tables, in dict order, concatenated (pd.concat over
env_data.values()); line 156 does the same for humidity. -/
def avg_temp_series (env : PyDict Table) : List Value :=
  (env.map (fun p => (p.2.getColumn temperatureCol).getD [])).flatten

/-- Fixture environment table for school "a": temperature 30. -/
def tblEnvA : Table := ⟨[(temperatureCol, [Value.num 30])]⟩

/-- Fixture environment table for school "b": temperature 10. -/
def tblEnvB : Table := ⟨[(temperatureCol, [Value.num 10])]⟩

/-- "a_t.csv": derived school key "a". -/
def fileTempA : DirFile := ⟨[0x61, 0x5F, 0x74, 0x2E, 0x63, 0x73, 0x76], .csv tblEnvA⟩

/-- "b_t.csv": derived school key "b". -/
def fileTempB : DirFile := ⟨[0x62, 0x5F, 0x74, 0x2E, 0x63, 0x73, 0x76], .csv tblEnvB⟩

/-- The environment dataset loaded from a_t.csv and b_t.csv. -/
def envTempDict : PyDict Table := [([0x61], tblEnvA), ([0x62], tblEnvB)]

/-
Theorems.  First the normalization development: the streaming composer
only ever emits a string whose adjacent pairs cannot compose further,
and on such strings it is the identity.
-/

theorem composable_false_of_big {a b : Nat} (h : 0xAC00 ≤ b) :
    composable a b = false := by
  have hv : isV b = false := by simp [isV]; omega
  have ht : isT b = false := by simp [isT]; omega
  simp [composable, hv, ht]

theorem noComp_tail : ∀ {a : Nat} {l : PyStr}, noComp (a :: l) = true → noComp l = true
  | _, [], _ => rfl
  | a, b :: bs, h => by
      simp only [noComp, Bool.and_eq_true] at h
      exact h.2

theorem noComp_head {a b : Nat} {l : PyStr} (h : noComp (a :: b :: l) = true) :
    composable a b = false := by
  simp only [noComp, Bool.and_eq_true, Bool.not_eq_true'] at h
  exact h.1

theorem noComp_replaceLast : ∀ (xs : PyStr) (a b : Nat),
    noComp (xs ++ [a]) = true → 0xAC00 ≤ b → noComp (xs ++ [b]) = true
  | [], _, _, _, _ => by simp [noComp]
  | [x], a, b, _, hb => by
      have hc : composable x b = false := composable_false_of_big hb
      simp [noComp, hc]
  | x :: y :: ys, a, b, h, hb => by
      simp only [List.cons_append, noComp, Bool.and_eq_true] at h ⊢
      exact ⟨h.1, noComp_replaceLast (y :: ys) a b h.2 hb⟩

theorem noComp_snoc : ∀ (xs : PyStr) (o c : Nat),
    noComp (xs ++ [o]) = true → composable o c = false → noComp (xs ++ [o, c]) = true
  | [], o, c, _, hc => by simp [noComp, hc]
  | [x], o, c, h, hc => by
      simp only [List.singleton_append, noComp, Bool.and_eq_true] at h
      simp only [List.cons_append, List.nil_append, noComp, Bool.and_eq_true]
      exact ⟨h.1, by simp [hc]⟩
  | x :: y :: ys, o, c, h, hc => by
      simp only [List.cons_append, noComp, Bool.and_eq_true] at h ⊢
      exact ⟨h.1, noComp_snoc (y :: ys) o c h.2 hc⟩

theorem noComp_nfcAux : ∀ (rest acc : PyStr),
    noComp acc.reverse = true → noComp (nfcAux acc rest) = true
  | [], _, h => by simpa [nfcAux] using h
  | c :: rest, [], _ => noComp_nfcAux rest [c] (by simp [noComp])
  | c :: rest, o :: os, h => by
      by_cases h1 : (isL o && isV c) = true
      · rw [show nfcAux (o :: os) (c :: rest) = nfcAux (composeLV o c :: os) rest
            from by simp [nfcAux, h1]]
        refine noComp_nfcAux rest (composeLV o c :: os) ?_
        have hb : 0xAC00 ≤ composeLV o c := by unfold composeLV; omega
        have h' : noComp (os.reverse ++ [o]) = true := by
          simpa [List.reverse_cons] using h
        simpa [List.reverse_cons] using noComp_replaceLast os.reverse o _ h' hb
      · by_cases h2 : (isLVSyl o && isT c) = true
        · rw [show nfcAux (o :: os) (c :: rest) = nfcAux ((o + (c - 0x11A7)) :: os) rest
              from by simp [nfcAux, h1, h2]]
          refine noComp_nfcAux rest ((o + (c - 0x11A7)) :: os) ?_
          have ho : 0xAC00 ≤ o := by
            have := (Bool.and_eq_true _ _).mp h2
            have := this.1
            simp [isLVSyl] at this
            omega
          have hb : 0xAC00 ≤ o + (c - 0x11A7) := le_trans ho (Nat.le_add_right o _)
          have h' : noComp (os.reverse ++ [o]) = true := by
            simpa [List.reverse_cons] using h
          simpa [List.reverse_cons] using noComp_replaceLast os.reverse o _ h' hb
        · rw [show nfcAux (o :: os) (c :: rest) = nfcAux (c :: o :: os) rest
              from by simp [nfcAux, h1, h2]]
          refine noComp_nfcAux rest (c :: o :: os) ?_
          have hc : composable o c = false := by simp [composable, h1, h2]
          have h' : noComp (os.reverse ++ [o]) = true := by
            simpa [List.reverse_cons] using h
          have := noComp_snoc os.reverse o c h' hc
          simpa [List.reverse_cons, List.append_assoc] using this

theorem noComp_nfc (s : PyStr) : noComp (nfc s) = true :=
  noComp_nfcAux s [] rfl

theorem nfcAux_of_noComp : ∀ (rest acc : PyStr),
    noComp rest = true →
    (∀ o c os cs, acc = o :: os → rest = c :: cs → composable o c = false) →
    nfcAux acc rest = acc.reverse ++ rest
  | [], acc, _, _ => by simp [nfcAux]
  | c :: rest, [], h, _ => by
      rw [show nfcAux [] (c :: rest) = nfcAux [c] rest from rfl]
      rw [nfcAux_of_noComp rest [c] (noComp_tail h) ?_]
      · simp
      · rintro o c' os cs ho hr
        obtain rfl : o = c := by cases ho; rfl
        subst hr
        exact noComp_head h
  | c :: rest, o :: os, h, hh => by
      have hoc : composable o c = false := hh o c os rest rfl rfl
      have h12 : (isL o && isV c) = false ∧ (isLVSyl o && isT c) = false := by
        simpa [composable] using hoc
      rw [show nfcAux (o :: os) (c :: rest) = nfcAux (c :: o :: os) rest
          from by simp [nfcAux, h12.1, h12.2]]
      rw [nfcAux_of_noComp rest (c :: o :: os) (noComp_tail h) ?_]
      · simp
      · rintro o' c' os' cs' ho' hr'
        obtain rfl : o' = c := by cases ho'; rfl
        subst hr'
        exact noComp_head h

theorem nfc_of_noComp {s : PyStr} (h : noComp s = true) : nfc s = s := by
  have := nfcAux_of_noComp s [] h (fun o c os cs hacc _ => by cases hacc)
  simpa [nfc] using this

/-- Claim C8: Unicode name normalization is idempotent — for every
string s, normalize_name (normalize_name s) = normalize_name s. -/
theorem normalize_name_idempotent (s : PyStr) :
    normalize_name (normalize_name s) = normalize_name s :=
  nfc_of_noComp (noComp_nfc s)

/-
Dictionary lemmas: Python dict assignment, lookup and keys.
-/

theorem dictLookup_nil {α : Type} (j : PyStr) : dictLookup ([] : PyDict α) j = none := rfl

theorem dictLookup_cons {α : Type} (p : PyStr × α) (rest : PyDict α) (j : PyStr) :
    dictLookup (p :: rest) j = if p.1 = j then some p.2 else dictLookup rest j := by
  unfold dictLookup
  by_cases h : p.1 = j
  · rw [List.find?_cons_of_pos _ (by simp [h]), if_pos h]
    rfl
  · rw [List.find?_cons_of_neg _ (by simp [h]), if_neg h]

theorem dictInsert_nil {α : Type} (k : PyStr) (v : α) : dictInsert [] k v = [(k, v)] := rfl

theorem dictInsert_cons {α : Type} (p : PyStr × α) (rest : PyDict α) (k : PyStr) (v : α) :
    dictInsert (p :: rest) k v
      = if p.1 = k then (k, v) :: rest else p :: dictInsert rest k v := rfl

theorem lookup_dictInsert {α : Type} (m : PyDict α) (k : PyStr) (v : α) (j : PyStr) :
    dictLookup (dictInsert m k v) j = if j = k then some v else dictLookup m j := by
  induction m with
  | nil =>
    rw [dictInsert_nil, dictLookup_cons, dictLookup_nil]
    by_cases h : j = k
    · rw [if_pos h.symm, if_pos h]
    · rw [if_neg (fun e => h e.symm), if_neg h]
  | cons p rest ih =>
    rw [dictInsert_cons]
    by_cases hp : p.1 = k
    · rw [if_pos hp, dictLookup_cons, dictLookup_cons]
      by_cases h : j = k
      · rw [if_pos h.symm, if_pos h]
      · rw [if_neg (fun e => h e.symm), if_neg h,
            if_neg (fun e => h (hp.symm.trans e).symm)]
    · rw [if_neg hp, dictLookup_cons, ih, dictLookup_cons]
      by_cases hj : p.1 = j
      · have hjk : ¬ j = k := fun e => hp (hj.trans e)
        rw [if_pos hj, if_neg hjk, if_pos hj]
      · rw [if_neg hj, if_neg hj]

theorem dictKeys_cons {α : Type} (p : PyStr × α) (rest : PyDict α) :
    dictKeys (p :: rest) = p.1 :: dictKeys rest := rfl

theorem mem_keys_dictInsert {α : Type} (m : PyDict α) (k : PyStr) (v : α) (j : PyStr) :
    j ∈ dictKeys (dictInsert m k v) ↔ j ∈ dictKeys m ∨ j = k := by
  induction m with
  | nil => simp [dictInsert_nil, dictKeys]
  | cons p rest ih =>
    rw [dictInsert_cons]
    by_cases hp : p.1 = k
    · subst hp
      rw [if_pos rfl, dictKeys_cons, dictKeys_cons]
      simp only [List.mem_cons]
      constructor
      · rintro (h | h)
        · exact Or.inr h
        · exact Or.inl (Or.inr h)
      · rintro ((h | h) | h)
        · exact Or.inl h
        · exact Or.inr h
        · exact Or.inl h
    · rw [if_neg hp, dictKeys_cons, dictKeys_cons]
      simp only [List.mem_cons]
      rw [ih]
      tauto

theorem nodup_keys_dictInsert {α : Type} (m : PyDict α) (k : PyStr) (v : α)
    (h : (dictKeys m).Nodup) : (dictKeys (dictInsert m k v)).Nodup := by
  induction m with
  | nil => simp [dictInsert_nil, dictKeys]
  | cons p rest ih =>
    rw [dictInsert_cons]
    simp only [dictKeys, List.map_cons, List.nodup_cons] at h
    by_cases hp : p.1 = k
    · rw [if_pos hp]
      simp only [dictKeys, List.map_cons, List.nodup_cons]
      exact ⟨hp ▸ h.1, h.2⟩
    · rw [if_neg hp]
      simp only [dictKeys, List.map_cons, List.nodup_cons]
      refine ⟨?_, ih h.2⟩
      intro hmem
      rw [show (dictInsert rest k v).map Prod.fst = dictKeys (dictInsert rest k v) from rfl,
          mem_keys_dictInsert] at hmem
      cases hmem with
      | inl hin => exact h.1 (by simpa [dictKeys] using hin)
      | inr heq => exact hp heq

theorem dictInsert_fresh {α : Type} (m : PyDict α) (k : PyStr) (v : α)
    (h : k ∉ dictKeys m) : dictInsert m k v = m ++ [(k, v)] := by
  induction m with
  | nil => rfl
  | cons p rest ih =>
    simp only [dictKeys, List.map_cons, List.mem_cons, not_or] at h
    rw [dictInsert_cons, if_neg (fun e => h.1 e.symm),
        ih (by simpa [dictKeys] using h.2)]
    rfl

theorem optOr_none_right {α : Type} (x : Option α) : optOr x none = x := by
  cases x <;> rfl

theorem optOr_some_left {α : Type} (x : Option α) (a : α) (y : Option α) :
    optOr (optOr x (some a)) y = optOr x (some a) := by
  cases x <;> rfl

theorem getLast?_cons_or {α : Type} (x : α) (xs : List α) :
    (x :: xs).getLast? = optOr xs.getLast? (some x) := by
  cases xs with
  | nil => rfl
  | cons y ys =>
    rw [List.getLast?_cons_cons]
    have h : (y :: ys).getLast?.isSome := List.getLast?_isSome.mpr (by simp)
    cases hy : (y :: ys).getLast? with
    | none => rw [hy] at h; simp at h
    | some z => rfl

theorem getLast?_mem_of_eq {α : Type} : ∀ (l : List α) (a : α), l.getLast? = some a → a ∈ l
  | [], a, h => by simp at h
  | x :: xs, a, h => by
      rw [getLast?_cons_or] at h
      cases hx : xs.getLast? with
      | none =>
        rw [hx] at h
        obtain rfl : x = a := by simpa [optOr] using h
        exact List.mem_cons_self _ _
      | some z =>
        rw [hx] at h
        obtain rfl : z = a := by simpa [optOr] using h
        exact List.mem_cons_of_mem _ (getLast?_mem_of_eq xs z hx)

/-
Environment-loader lemmas: the fold over the discovered CSV files.
-/

theorem envLoad_lookup : ∀ (fs : List DirFile) (m res : PyDict Table),
    envLoad fs m = some res → ∀ k,
      dictLookup res k
        = optOr ((fs.filterMap (fun f => if envKey f = k then csvTable f else none)).getLast?)
            (dictLookup m k)
  | [], m, res, h, k => by
      obtain rfl : m = res := by simpa [envLoad] using h
      rfl
  | ⟨fn, FileData.csv t⟩ :: rest, m, res, h, k => by
      have h' : envLoad rest (dictInsert m (envKey ⟨fn, FileData.csv t⟩) t) = some res := h
      rw [envLoad_lookup rest _ res h' k, lookup_dictInsert]
      by_cases hk : envKey ⟨fn, FileData.csv t⟩ = k
      · have hfm : (⟨fn, FileData.csv t⟩ :: rest).filterMap
            (fun f => if envKey f = k then csvTable f else none)
            = t :: rest.filterMap (fun f => if envKey f = k then csvTable f else none) :=
          List.filterMap_cons_some (by simp [hk, csvTable])
        rw [hfm, if_pos hk.symm, getLast?_cons_or, optOr_some_left]
      · rw [List.filterMap_cons_none (by simp [hk])]
        rw [if_neg (fun e => hk e.symm)]
  | ⟨fn, FileData.xlsx s⟩ :: rest, m, res, h, k => by simp [envLoad] at h
  | ⟨fn, FileData.other⟩ :: rest, m, res, h, k => by simp [envLoad] at h

theorem envLoad_keys : ∀ (fs : List DirFile) (m res : PyDict Table),
    envLoad fs m = some res → ∀ j,
      (j ∈ dictKeys res ↔ j ∈ dictKeys m ∨ ∃ f ∈ fs, envKey f = j)
  | [], m, res, h, j => by
      obtain rfl : m = res := by simpa [envLoad] using h
      simp
  | ⟨fn, FileData.csv t⟩ :: rest, m, res, h, j => by
      have h' : envLoad rest (dictInsert m (envKey ⟨fn, FileData.csv t⟩) t) = some res := h
      rw [envLoad_keys rest _ res h' j, mem_keys_dictInsert]
      simp only [List.mem_cons]
      constructor
      · rintro ((hm | he) | ⟨f, hf, hkey⟩)
        · exact Or.inl hm
        · exact Or.inr ⟨_, Or.inl rfl, he.symm⟩
        · exact Or.inr ⟨f, Or.inr hf, hkey⟩
      · rintro (hm | ⟨f, (rfl | hf), hkey⟩)
        · exact Or.inl (Or.inl hm)
        · exact Or.inl (Or.inr hkey.symm)
        · exact Or.inr ⟨f, hf, hkey⟩
  | ⟨fn, FileData.xlsx s⟩ :: rest, m, res, h, j => by simp [envLoad] at h
  | ⟨fn, FileData.other⟩ :: rest, m, res, h, j => by simp [envLoad] at h

theorem envLoad_nodup : ∀ (fs : List DirFile) (m res : PyDict Table),
    envLoad fs m = some res → (dictKeys m).Nodup → (dictKeys res).Nodup
  | [], m, res, h, hm => by
      obtain rfl : m = res := by simpa [envLoad] using h
      exact hm
  | ⟨fn, FileData.csv t⟩ :: rest, m, res, h, hm =>
      envLoad_nodup rest _ res h (nodup_keys_dictInsert m _ t hm)
  | ⟨fn, FileData.xlsx s⟩ :: rest, m, res, h, hm => by simp [envLoad] at h
  | ⟨fn, FileData.other⟩ :: rest, m, res, h, hm => by simp [envLoad] at h

theorem envLoad_all_csv : ∀ (fs : List DirFile) (m res : PyDict Table),
    envLoad fs m = some res → ∀ f ∈ fs, ∃ t, csvTable f = some t
  | [], _, _, _, f, hf => by simp at hf
  | ⟨fn, FileData.csv t⟩ :: rest, m, res, h, f, hf => by
      have h' : envLoad rest (dictInsert m (envKey ⟨fn, FileData.csv t⟩) t) = some res := h
      rcases List.mem_cons.mp hf with rfl | hmem
      · exact ⟨t, rfl⟩
      · exact envLoad_all_csv rest _ res h' f hmem
  | ⟨fn, FileData.xlsx s⟩ :: rest, m, res, h, f, hf => by simp [envLoad] at h
  | ⟨fn, FileData.other⟩ :: rest, m, res, h, f, hf => by simp [envLoad] at h

/-- Claim C10: when two or more environment files derive the same
normalized leading-token school key, the EnvironmentDataset holds
exactly one entry per key, and the entry for a duplicated key is the
table of the file encountered last in directory iteration order —
earlier files' contents are silently discarded. -/
theorem env_duplicate_key_last_wins (d : List DirFile) (m : PyDict Table)
    (h : load_environment_data d = some m) :
    (dictKeys m).Nodup ∧ ∀ k,
      dictLookup m k
        = ((find_files_by_ext d dotCsvExt).filterMap
            (fun f => if envKey f = k then csvTable f else none)).getLast? := by
  cases hcs : find_files_by_ext d dotCsvExt with
  | nil => simp [load_environment_data, hcs] at h
  | cons f0 fs =>
    have h' : envLoad (f0 :: fs) [] = some m := by
      simpa [load_environment_data, hcs] using h
    refine ⟨envLoad_nodup _ _ _ h' (by simp [dictKeys]), fun k => ?_⟩
    have hl := envLoad_lookup _ _ _ h' k
    rw [dictLookup_nil, optOr_none_right] at hl
    rw [hl]

/-- Claim C10 witness: two CSV files a_x.csv and a_y.csv derive the
same key "a"; the loaded dataset has nodup keys and its entry for "a"
is determined by the last matching file. -/
theorem env_duplicate_key_last_wins_witness :
    (dictKeys [([0x61], tblTimeY)]).Nodup
    ∧ dictLookup [([0x61], tblTimeY)] [0x61]
        = ((find_files_by_ext [fileAX, fileAY] dotCsvExt).filterMap
            (fun f => if envKey f = [0x61] then csvTable f else none)).getLast? := by
  have h := env_duplicate_key_last_wins [fileAX, fileAY] [([0x61], tblTimeY)] (by decide)
  exact ⟨h.1, h.2 [0x61]⟩

/-- Claim C7: every discovered environment file is assigned to the
school key derived as the NFC-normalized leading token of its filename
stem before the underscore separator, and the resulting
EnvironmentDataset is keyed by exactly those derived identifiers. -/
theorem env_dataset_keyed_by_derived_key (d : List DirFile) (m : PyDict Table)
    (h : load_environment_data d = some m) :
    (∀ j, j ∈ dictKeys m ↔ ∃ f ∈ find_files_by_ext d dotCsvExt, envKey f = j)
    ∧ ∀ f ∈ find_files_by_ext d dotCsvExt, ∃ t,
        dictLookup m (envKey f) = some t
        ∧ ∃ g ∈ find_files_by_ext d dotCsvExt, envKey g = envKey f ∧ csvTable g = some t := by
  cases hcs : find_files_by_ext d dotCsvExt with
  | nil => simp [load_environment_data, hcs] at h
  | cons f0 fs =>
    have h' : envLoad (f0 :: fs) [] = some m := by
      simpa [load_environment_data, hcs] using h
    constructor
    · intro j
      have hk := envLoad_keys _ _ _ h' j
      simpa [dictKeys] using hk
    · intro f hf
      have hl := envLoad_lookup _ _ _ h' (envKey f)
      rw [dictLookup_nil, optOr_none_right] at hl
      obtain ⟨t0, hct⟩ := envLoad_all_csv _ _ _ h' f hf
      have hme : t0 ∈ (f0 :: fs).filterMap
          (fun a => if envKey a = envKey f then csvTable a else none) := by
        rw [List.mem_filterMap]
        exact ⟨f, hf, by rw [if_pos rfl]; exact hct⟩
      have hnn : (f0 :: fs).filterMap
          (fun a => if envKey a = envKey f then csvTable a else none) ≠ [] := by
        intro e
        rw [e] at hme
        simp at hme
      have hsome : ((f0 :: fs).filterMap
          (fun a => if envKey a = envKey f then csvTable a else none)).getLast?.isSome :=
        List.getLast?_isSome.mpr hnn
      obtain ⟨z, hz⟩ := Option.isSome_iff_exists.mp hsome
      have hzmem := getLast?_mem_of_eq _ _ hz
      rw [List.mem_filterMap] at hzmem
      obtain ⟨a, ha, hga⟩ := hzmem
      have hae : envKey a = envKey f := by
        by_contra hne
        rw [if_neg hne] at hga
        cases hga
      rw [if_pos hae] at hga
      exact ⟨z, by rw [hl, hz], a, ha, hae, hga⟩

/-- Claim C7 witness: for the directory holding a_x.csv and b_e.csv
the dataset keys are exactly the derived leading tokens. -/
theorem env_dataset_keyed_by_derived_key_witness :
    [0x61] ∈ dictKeys [([0x61], tblTimeX), ([0x62], tblOne)]
      ↔ ∃ f ∈ find_files_by_ext [fileAX, fileB] dotCsvExt, envKey f = [0x61] :=
  (env_dataset_keyed_by_derived_key [fileAX, fileB]
    [([0x61], tblTimeX), ([0x62], tblOne)] (by decide)).1 [0x61]

/-- Claim C2 counterexample: a directory whose single CSV file carries
the unparseable raw string "x" in its time column loads successfully —
no error, no dropped rows — and the stored time value remains a raw
string, not a structured date-time. -/
theorem env_timestamp_not_converted_cex :
    load_environment_data [fileAX] = some [([0x61], tblTimeX)]
    ∧ Table.getColumn tblTimeX [0x74, 0x69, 0x6D, 0x65] = some [Value.str [0x78]]
    ∧ Value.isDatetime (Value.str [0x78]) = false := by
  exact ⟨by decide, by decide, rfl⟩

/-- Claim C2 (amended): the environment loader stores each school's
table exactly as the CSV parser produced it — every stored table is the
verbatim table of one of the matched files, so the row count is
preserved, the time column is left as raw strings, and an unparseable
timestamp value never fails the load. -/
theorem env_tables_stored_verbatim (d : List DirFile) (m : PyDict Table)
    (h : load_environment_data d = some m) :
    ∀ k t, dictLookup m k = some t →
      ∃ f ∈ find_files_by_ext d dotCsvExt, envKey f = k ∧ csvTable f = some t := by
  intro k t hkt
  cases hcs : find_files_by_ext d dotCsvExt with
  | nil => simp [load_environment_data, hcs] at h
  | cons f0 fs =>
    have h' : envLoad (f0 :: fs) [] = some m := by
      simpa [load_environment_data, hcs] using h
    have hl := envLoad_lookup _ _ _ h' k
    rw [dictLookup_nil, optOr_none_right, hkt] at hl
    have hmem := getLast?_mem_of_eq _ _ hl.symm
    rw [List.mem_filterMap] at hmem
    obtain ⟨a, ha, hga⟩ := hmem
    have hae : envKey a = k := by
      by_contra hne
      rw [if_neg hne] at hga
      cases hga
    rw [if_pos hae] at hga
    exact ⟨a, ha, hae, hga⟩

/-- Claim C2 (amended) witness: the single file b_e.csv is stored
verbatim under key "b". -/
theorem env_tables_stored_verbatim_witness :
    ∃ f ∈ find_files_by_ext [fileB] dotCsvExt, envKey f = [0x62] ∧ csvTable f = some tblOne :=
  env_tables_stored_verbatim [fileB] [([0x62], tblOne)] (by decide) [0x62] tblOne (by decide)

/-- Claim C6: if no file with the growth workbook extension exists in
the input directory, growth dataset construction fails immediately and
no partial GrowthDataset — no mapping with any keys — is returned. -/
theorem growth_absent_fileNotFound (d : List DirFile)
    (h : find_files_by_ext d dotXlsxExt = []) :
    load_growth_data d = none := by
  simp [load_growth_data, h]

/-- Claim C6 witness: a directory holding only a CSV file yields a
failed growth load. -/
theorem growth_absent_fileNotFound_witness : load_growth_data [fileB] = none :=
  growth_absent_fileNotFound [fileB] (by decide)

/-- Claim C5: if either dataset load fails, the dashboard run produces
no output at all — execution short-circuits before any aggregation or
rendering, and there is no partial-success mode using only one
dataset. -/
theorem pipeline_no_partial_success (d : List DirFile)
    (h : load_environment_data d = none ∨ load_growth_data d = none) :
    run_dashboard d = none := by
  cases h with
  | inl he => cases hg : load_growth_data d <;> simp [run_dashboard, he, hg]
  | inr hg => cases he : load_environment_data d <;> simp [run_dashboard, he, hg]

/-- Claim C5 witness: an empty directory fails both loads and the
dashboard renders nothing. -/
theorem pipeline_no_partial_success_witness : run_dashboard [] = none :=
  pipeline_no_partial_success [] (Or.inl (by decide))

/-
Growth-loader lemmas: folding the sheets of the first workbook into a
dict keyed by normalized sheet name.
-/

theorem dictKeys_append {α : Type} (m l : PyDict α) :
    dictKeys (m ++ l) = dictKeys m ++ dictKeys l := by
  simp [dictKeys]

theorem foldl_dictInsert_fresh {α : Type} : ∀ (ps : List (PyStr × α)) (m : PyDict α),
    (ps.map Prod.fst).Nodup → (∀ j ∈ ps.map Prod.fst, j ∉ dictKeys m) →
    ps.foldl (fun acc p => dictInsert acc p.1 p.2) m = m ++ ps
  | [], m, _, _ => by simp
  | p :: ps, m, hnd, hfresh => by
      rw [List.foldl_cons]
      have h1 : dictInsert m p.1 p.2 = m ++ [p] :=
        dictInsert_fresh m p.1 p.2 (hfresh p.1 (by simp))
      rw [h1, foldl_dictInsert_fresh ps (m ++ [p]) ?_ ?_]
      · simp
      · exact (List.nodup_cons.mp (by simpa using hnd)).2
      · intro j hj
        rw [dictKeys_append]
        simp only [List.mem_append]
        rintro (hm | hp)
        · exact hfresh j (by simp [hj]) hm
        · have hjp : j = p.1 := by simpa [dictKeys] using hp
          have hnd1 : p.1 ∉ ps.map Prod.fst := (List.nodup_cons.mp (by simpa using hnd)).1
          exact hnd1 (hjp ▸ hj)

theorem sheetFold_eq_of_nodup (sheets : List (PyStr × Table))
    (h : (sheets.map (fun p => normalize_name p.1)).Nodup) :
    sheetFold sheets = sheets.map (fun p => (normalize_name p.1, p.2)) := by
  unfold sheetFold
  rw [show sheets.foldl (fun m p => dictInsert m (normalize_name p.1) p.2) []
      = (sheets.map (fun p => (normalize_name p.1, p.2))).foldl
          (fun acc q => dictInsert acc q.1 q.2) [] from by rw [List.foldl_map]]
  rw [foldl_dictInsert_fresh _ [] ?_ ?_]
  · simp
  · simpa [List.map_map, Function.comp] using h
  · intro j hj
    simp [dictKeys]

theorem lookup_of_mem_nodup {α : Type} : ∀ (m : PyDict α) (p : PyStr × α),
    (dictKeys m).Nodup → p ∈ m → dictLookup m p.1 = some p.2
  | [], p, _, hp => by simp at hp
  | q :: rest, p, hnd, hp => by
      have hnd' := List.nodup_cons.mp (by rw [dictKeys_cons] at hnd; exact hnd)
      rw [dictLookup_cons]
      rcases List.mem_cons.mp hp with rfl | hmem
      · rw [if_pos rfl]
      · by_cases hq : q.1 = p.1
        · exfalso
          have hmem1 : p.1 ∈ dictKeys rest := List.mem_map_of_mem _ hmem
          exact hnd'.1 (hq ▸ hmem1)
        · rw [if_neg hq]
          exact lookup_of_mem_nodup rest p hnd'.2 hmem

/-- Claim C4 counterexample: a workbook with two sheets whose names
share the same NFC form loads into a GrowthDataset with a single key —
not one key per sheet. -/
theorem growth_sheet_collision_cex :
    load_growth_data [wbCollide] = some [([0xD558], tblTwo)]
    ∧ sheetsCollide.length = 2
    ∧ (dictKeys [([0xD558], tblTwo)]).length = 1 :=
  ⟨by decide, rfl, rfl⟩

/-- Claim C4 (amended): loading a workbook yields a GrowthDataset
keyed by the NFC-normalized sheet names — at most N keys for N sheets,
and exactly N keys, in sheet order, whenever the normalized sheet names
are pairwise distinct, each key holding the table parsed from its
sheet. -/
theorem growth_keys_normalized_sheets (d : List DirFile) (fn : PyStr)
    (sheets : List (PyStr × Table)) (fs : List DirFile)
    (hfind : find_files_by_ext d dotXlsxExt = ⟨fn, FileData.xlsx sheets⟩ :: fs)
    (hnodup : (sheets.map (fun p => normalize_name p.1)).Nodup) :
    load_growth_data d = some (sheets.map (fun p => (normalize_name p.1, p.2)))
    ∧ dictKeys (sheets.map (fun p => (normalize_name p.1, p.2)))
        = sheets.map (fun p => normalize_name p.1)
    ∧ ∀ p ∈ sheets,
        dictLookup (sheets.map (fun p => (normalize_name p.1, p.2))) (normalize_name p.1)
          = some p.2 := by
  have hkeys : dictKeys (sheets.map (fun p => (normalize_name p.1, p.2)))
      = sheets.map (fun p => normalize_name p.1) := by
    simp [dictKeys, List.map_map, Function.comp]
  refine ⟨?_, hkeys, ?_⟩
  · rw [show load_growth_data d = some (sheetFold sheets) from by simp [load_growth_data, hfind]]
    rw [sheetFold_eq_of_nodup sheets hnodup]
  · intro p hp
    exact lookup_of_mem_nodup _ (normalize_name p.1, p.2)
      (by rw [hkeys]; exact hnodup) (List.mem_map_of_mem _ hp)

/-- Claim C4 (amended) witness: a workbook with two sheets named 하 and
한 — distinct NFC forms — loads into a two-key dataset. -/
theorem growth_keys_normalized_sheets_witness :
    load_growth_data [wbTwo] = some [([0xD558], tblOne), ([0xD55C], tblTwo)] := by
  have h := growth_keys_normalized_sheets [wbTwo] [0x68, 0x2E, 0x78, 0x6C, 0x73, 0x78]
      [([0xD558], tblOne), ([0xD55C], tblTwo)] [] (by decide) (by decide)
  exact h.1.trans (by decide)

/-- Claim C3 counterexample: the target extension string is compared
as given, not normalized and lower-cased — data.csv has processed
extension equal to the processed form of ".CSV", yet the locator
returns no file for that target. -/
theorem ext_match_target_not_processed_cex :
    find_files_by_ext [fileDataCsv] dotCsvUpper = []
    ∧ normalize_name (pyLower (pathSuffix fileDataCsv.fname))
        = normalize_name (pyLower dotCsvUpper) :=
  ⟨by decide, by decide⟩

/-- Claim C3 (amended): the extension-match locator normalizes and
lower-cases only the candidate file's extension and compares it to the
target string verbatim: it returns exactly the files whose processed
extension equals the given target (so DATA.XLSX matches ".xlsx", while
no file matches an upper-cased target such as ".CSV"), and the empty
list exactly when no file's processed extension equals the target. -/
theorem ext_match_candidate_only (d : List DirFile) (ext : PyStr) :
    (∀ f, f ∈ find_files_by_ext d ext
        ↔ f ∈ d ∧ normalize_name (pyLower (pathSuffix f.fname)) = ext)
    ∧ (find_files_by_ext d ext = []
        ↔ ∀ f ∈ d, normalize_name (pyLower (pathSuffix f.fname)) ≠ ext) := by
  constructor
  · intro f
    simp [find_files_by_ext, List.mem_filter]
  · rw [find_files_by_ext, List.filter_eq_nil_iff]
    simp

/-- Claim C3 (amended) witness: DATA.XLSX is returned for target
".xlsx". -/
theorem ext_match_candidate_only_witness :
    fileDataXlsxUpper ∈ find_files_by_ext [fileDataXlsxUpper] dotXlsxExt :=
  ((ext_match_candidate_only [fileDataXlsxUpper] dotXlsxExt).1 fileDataXlsxUpper).mpr
    ⟨by decide, by decide⟩

/-- Claim C1 (modelled from the spec, the keyword rule being absent
from src/): the keyword-match locator returns none exactly when no
candidate's NFC-normalized filename contains the NFC-normalized
keyword as a substring, and otherwise the first such file in directory
order. -/
theorem keyword_rule (d : List DirFile) (k : PyStr) :
    (find_file_by_keyword d k = none
        ↔ ∀ f ∈ d, containsSub (normalize_name f.fname) (normalize_name k) = false)
    ∧ ∀ f, find_file_by_keyword d k = some f →
        containsSub (normalize_name f.fname) (normalize_name k) = true
        ∧ ∃ pre post, d = pre ++ f :: post
            ∧ ∀ g ∈ pre, containsSub (normalize_name g.fname) (normalize_name k) = false := by
  induction d with
  | nil => simp [find_file_by_keyword]
  | cons f0 rest ih =>
    by_cases h0 : containsSub (normalize_name f0.fname) (normalize_name k) = true
    · constructor
      · rw [show find_file_by_keyword (f0 :: rest) k = some f0 from by
            simp [find_file_by_keyword, h0]]
        simp only [reduceCtorEq, false_iff, not_forall]
        exact ⟨f0, List.mem_cons_self f0 rest, by simp [h0]⟩
      · intro f hf
        rw [show find_file_by_keyword (f0 :: rest) k = some f0 from by
            simp [find_file_by_keyword, h0]] at hf
        obtain rfl : f0 = f := by cases hf; rfl
        exact ⟨h0, [], rest, rfl, by simp⟩
    · have hstep : find_file_by_keyword (f0 :: rest) k = find_file_by_keyword rest k := by
        simp [find_file_by_keyword, h0]
      constructor
      · rw [hstep, ih.1]
        constructor
        · intro hall f hf
          rcases List.mem_cons.mp hf with rfl | hf
          · simpa using h0
          · exact hall f hf
        · intro hall f hf
          exact hall f (List.mem_cons_of_mem _ hf)
      · intro f hf
        rw [hstep] at hf
        obtain ⟨hmatch, pre, post, hd, hpre⟩ := ih.2 f hf
        refine ⟨hmatch, f0 :: pre, post, by rw [hd]; rfl, ?_⟩
        intro g hg
        rcases List.mem_cons.mp hg with rfl | hg
        · simpa using h0
        · exact hpre g hg

/-- Claim C1 witness: with r.txt first and x송도고.csv second, the
keyword 송도고 selects the second file, whose normalized name contains
the normalized keyword. -/
theorem keyword_rule_witness :
    containsSub (normalize_name fileKwYes.fname) (normalize_name songdoName) = true :=
  ((keyword_rule [fileKwNo, fileKwYes] songdoName).2 fileKwYes (by decide)).1

theorem exists_mem_of_dictLookup {α : Type} (m : PyDict α) (k : PyStr) (v : α)
    (h : dictLookup m k = some v) : ∃ p ∈ m, p.2 = v := by
  unfold dictLookup at h
  cases hf : m.find? (fun p => p.1 == k) with
  | none => rw [hf] at h; cases h
  | some q =>
    rw [hf] at h
    exact ⟨q, List.mem_of_find?_eq_some hf, Option.some.inj h⟩

/-- Claim C9 counterexample: a school present only in the environment
dataset is dropped from the rendered schools list, yet it is not
excluded from every summary statistic — its temperature value 30 is
part of the series whose mean the dashboard renders as the average
temperature metric (src/main.py lines 155 and 166), turning that mean
into 20 instead of the intersection-only 10. -/
theorem env_only_school_in_rendered_metric_cex :
    load_environment_data [fileTempA, fileTempB, wbB] = some envTempDict
    ∧ load_growth_data [fileTempA, fileTempB, wbB] = some [([0x62], tblTwo)]
    ∧ schoolsOf envTempDict [([0x62], tblTwo)] = [[0x62]]
    ∧ [0x61] ∉ schoolsOf envTempDict [([0x62], tblTwo)]
    ∧ [0x61] ∈ dictKeys envTempDict
    ∧ dictLookup envTempDict [0x61] = some tblEnvA
    ∧ Table.getColumn tblEnvA temperatureCol = some [Value.num 30]
    ∧ avg_temp_series envTempDict = [Value.num 30, Value.num 10] :=
  ⟨by decide, by decide, by decide, by decide, by decide, by decide, rfl, by decide⟩

/-- Claim C9 (amended): the per-school aggregation set — the schools
list driving the Tab-1 summary rows and the per-school chart loops —
is the sorted intersection of the environment and growth key sets, and
a school present in only one dataset is silently dropped from that
list with no error raised; it is not, however, excluded from every
summary statistic: the rendered average-temperature (and humidity)
metrics are computed over the environment tables of all loaded
schools, so every environment school's temperature values — including
those of schools absent from the growth dataset — feed that metric's
series. -/
theorem schools_sorted_intersection (d : List DirFile) (e g : PyDict Table)
    (he : load_environment_data d = some e) (hg : load_growth_data d = some g) :
    run_dashboard d = some ⟨e, g, schoolsOf e g⟩
    ∧ (∀ s, s ∈ schoolsOf e g ↔ s ∈ dictKeys e ∧ s ∈ dictKeys g)
    ∧ List.Sorted (fun a b : PyStr => a ≤ b) (schoolsOf e g)
    ∧ (schoolsOf e g).Nodup
    ∧ (summary_rows (schoolsOf e g) g).map SummaryRow.school = schoolsOf e g
    ∧ ∀ s t vs, dictLookup e s = some t → Table.getColumn t temperatureCol = some vs →
        ∀ v ∈ vs, v ∈ avg_temp_series e := by
  refine ⟨?_, ?_, ?_, ?_, ?_, ?_⟩
  · simp [run_dashboard, he, hg]
  · intro s
    unfold schoolsOf
    rw [List.mem_insertionSort, List.mem_filter]
    simp [List.any_eq_true]
  · exact List.sorted_insertionSort _ _
  · have hnd : (dictKeys e).Nodup := by
      cases hcs : find_files_by_ext d dotCsvExt with
      | nil => simp [load_environment_data, hcs] at he
      | cons f0 fs =>
        exact envLoad_nodup _ _ _ (by simpa [load_environment_data, hcs] using he)
          (by simp [dictKeys])
    unfold schoolsOf
    exact ((List.perm_insertionSort _ _).nodup_iff).mpr (hnd.filter _)
  · unfold summary_rows
    rw [List.map_map]
    exact List.map_id'' (fun s => rfl) _
  · intro s t vs hst hcol v hv
    obtain ⟨p, hp, hpt⟩ := exists_mem_of_dictLookup e s t hst
    refine List.mem_flatten_of_mem
      (List.mem_map_of_mem (fun p => (p.2.getColumn temperatureCol).getD []) hp) ?_
    rw [hpt, hcol]
    exact hv

/-- Claim C9 witness: environment data for schools "a" and "b" but
growth data only for "b" still renders, aggregating exactly the common
school. -/
theorem schools_sorted_intersection_witness :
    run_dashboard [fileAX, fileB, wbB]
      = some ⟨[([0x61], tblTimeX), ([0x62], tblOne)], [([0x62], tblTwo)],
          schoolsOf [([0x61], tblTimeX), ([0x62], tblOne)] [([0x62], tblTwo)]⟩ :=
  (schools_sorted_intersection [fileAX, fileB, wbB]
    [([0x61], tblTimeX), ([0x62], tblOne)] [([0x62], tblTwo)]
    (by decide) (by decide)).1
